import Mathlib

/-!
Verification development for the `git-annex-log-stats` repository.

The repository has three Python source files:
* `git-annex-log-stats.py` — the Collector: walks a git history, computes a
  tracked-content size and an annexed-content size per commit, and maintains a
  JSON result store keyed by commit hexsha.
* `git-annex-log-stats-gpt.py` — an earlier variant of the Collector whose
  size-oracle adapter converts the whole size field with `int()` instead of
  splitting off the leading token.
* `plot-log-stats.py` — the Aggregator/Renderer: loads result stores, folds
  per-commit records into per-month series with carry-forward, filters by a
  minimum-size floor and plots.

The development shallowly embeds these programs: subprocess and file-system
effects are abstracted into explicit outcome values, and all functions are
executable Lean definitions mirroring the Python control flow.
-/

/-! ### Python string primitives used by the adapters

`str.split()` with no argument splits on runs of whitespace and drops empty
pieces; `int(s)` strips surrounding whitespace and converts a digit string.
The oracle emits only nonnegative sizes, so the embedding of `int` covers the
unsigned digit-string case; on every other input (internal spaces,
parentheses, letters) Python `int` raises `ValueError`, embedded as `none`.
-/

/-- Accumulator-based splitter behind `splitWs`; `acc` holds the current token
reversed. -/
def splitWsAcc : List Char → List Char → List (List Char)
  | [], acc => if acc.isEmpty then [] else [acc.reverse]
  | c :: cs, acc =>
    if c.isWhitespace then
      if acc.isEmpty then splitWsAcc cs [] else acc.reverse :: splitWsAcc cs []
    else splitWsAcc cs (c :: acc)

/-- Embedding of Python `str.split()` (no separator): whitespace-run
splitting, empty pieces dropped. -/
def splitWs (l : List Char) : List (List Char) :=
  splitWsAcc l []

/-- Numeric value of a digit string, most significant digit first. -/
def natOfDigits (l : List Char) : Nat :=
  l.foldl (fun n c => n * 10 + (c.toNat - 48)) 0

/-- Strip leading and trailing whitespace, as Python `int` does before
conversion. -/
def trimWs (l : List Char) : List Char :=
  ((l.dropWhile Char.isWhitespace).reverse.dropWhile Char.isWhitespace).reverse

/-- Embedding of Python `int(s)` on the oracle's (nonnegative) size strings:
strip whitespace, then require a nonempty all-digit string, else `ValueError`
(`none`). -/
def pyIntNat? (l : List Char) : Option Nat :=
  let t := trimWs l
  if t ≠ [] ∧ t.all Char.isDigit then some (natOfDigits t) else none

/-! ### The size-oracle outcome

Both collector variants run `git -C <repo> annex info --bytes --json <commit>`
and read the JSON field `"size of annexed files in tree"`.  The embedding
abstracts one subprocess round-trip into an outcome value: the call can raise
while spawning or communicating, exit nonzero, produce undecodable JSON, or
produce a JSON object in which the size field is present (a string) or
absent. -/

inductive OracleOutcome where
  /-- `create_subprocess_exec` / `communicate` raised (e.g. spawn failure,
  timeout). -/
  | spawnError : OracleOutcome
  /-- The subprocess exited with a nonzero return code; carries stderr. -/
  | exitNonzero (stderr : String) : OracleOutcome
  /-- `json.loads(stdout)` raised. -/
  | badJson : OracleOutcome
  /-- JSON decoded; the `"size of annexed files in tree"` field, if present. -/
  | okJson (field : Option String) : OracleOutcome
deriving DecidableEq

namespace GitAnnexLogStats

/-- The `try:` body of `get_annex_size_async` in `git-annex-log-stats.py`
(lines 47–59): communicate with the subprocess, return 0 on nonzero exit,
decode the JSON, and convert the first whitespace-separated token of the size
field (default `"0"`).  `Except.error` marks a raised exception:
`json.loads` failure, `split()[0]` on an empty list (`IndexError`), or
`int()` failure (`ValueError`). -/
def annexSizeTryBody (o : OracleOutcome) : Except String Nat :=
  match o with
  | .spawnError => .error "subprocess communication raised"
  | .exitNonzero _ => .ok 0
  | .badJson => .error "json.loads raised"
  | .okJson field =>
    let s := field.getD "0"
    match splitWs s.data with
    | [] => .error "IndexError: split produced no tokens"
    | tok :: _ =>
      match pyIntNat? tok with
      | some n => .ok n
      | none => .error "ValueError: invalid literal for int"

/-- `get_annex_size_async` (lines 41–62): returns 0 when the repository has
no annex; otherwise runs the `try:` body and maps any exception to 0 in the
`except` handler. -/
def get_annex_size_async (hasAnnex : Bool) (o : OracleOutcome) : Nat :=
  if hasAnnex then
    match annexSizeTryBody o with
    | .ok n => n
    | .error _ => 0
  else 0

/-- An oracle query counts as failed when the subprocess exits nonzero or any
step of the `try:` body raises (spawn failure, undecodable JSON, unparsable
size field). -/
def oracleFailed (o : OracleOutcome) : Bool :=
  match o with
  | .exitNonzero _ => true
  | o =>
    match annexSizeTryBody o with
    | .ok _ => false
    | .error _ => true

end GitAnnexLogStats

namespace Gpt

/-- The `try:` body of `get_annex_size_async` in `git-annex-log-stats-gpt.py`
(lines 14–27): same subprocess handling, but the size field is converted with
`int(...)` applied to the whole value; the absent-field default is the
integer `0`, so `int(0)` succeeds with 0. -/
def annexSizeTryBody (o : OracleOutcome) : Except String Nat :=
  match o with
  | .spawnError => .error "subprocess communication raised"
  | .exitNonzero _ => .ok 0
  | .badJson => .error "json.loads raised"
  | .okJson field =>
    match field with
    | none => .ok 0
    | some s =>
      match pyIntNat? s.data with
      | some n => .ok n
      | none => .error "ValueError: invalid literal for int"

/-- `get_annex_size_async` in the gpt variant (lines 11–30): run the `try:`
body, mapping any exception to 0.  This variant has no annex-availability
gate. -/
def get_annex_size_async (o : OracleOutcome) : Nat :=
  match annexSizeTryBody o with
  | .ok n => n
  | .error _ => 0

end Gpt

namespace GitAnnexLogStats

/-! ### Git tree items and the tracked-content size

GitPython's `commit.tree.traverse()` yields every item (blobs and subtree
objects) reachable from the root tree by full recursive traversal, not
including the root tree itself.  An item exposes `type`, `mode` and (for
blobs) `size`; a symlink is a blob with mode `0o120000` whose `size` is the
byte length of its link-target string. -/

inductive GitItem where
  /-- A blob entry with its git file mode and object size in bytes. -/
  | blob (mode : Nat) (size : Nat) : GitItem
  /-- A subtree with its child entries. -/
  | tree (entries : List GitItem) : GitItem

mutual

/-- All items yielded by `traverse()` starting at one item (the item itself,
then its descendants). -/
def traverseItem : GitItem → List GitItem
  | .blob mode size => [.blob mode size]
  | .tree entries => .tree entries :: traverseList entries

/-- All items yielded by traversing a list of sibling entries in order. -/
def traverseList : List GitItem → List GitItem
  | [] => []
  | i :: is => traverseItem i ++ traverseList is

end

/-- The filter of `process_commit` line 76: keep blobs whose mode is not the
symlink mode `0o120000`. -/
def isCountedBlob : GitItem → Bool
  | .blob mode _ => mode ≠ 0o120000
  | .tree _ => false

/-- `item.size` for a traversed item (only consulted on blobs). -/
def itemSize : GitItem → Nat
  | .blob _ size => size
  | .tree _ => 0

/-- `process_commit` lines 75–76: the tracked-content ("git") size of a
commit whose root tree has entries `rootEntries`, i.e.
`sum(item.size for item in commit.tree.traverse() if item.type == 'blob' and
item.mode != 0o120000)`. -/
def git_size (rootEntries : List GitItem) : Nat :=
  ((traverseList rootEntries).filter isCountedBlob).foldl
    (fun acc i => acc + itemSize i) 0

mutual

/-- Spec-style restatement for one item: the sum of the sizes of all blob
entries reachable from the item whose mode does not mark them as symbolic
links. -/
def specBlobSizeItem : GitItem → Nat
  | .blob mode size => if mode = 0o120000 then 0 else size
  | .tree entries => specBlobSizeList entries

/-- Spec-style restatement for a list of entries. -/
def specBlobSizeList : List GitItem → Nat
  | [] => 0
  | i :: is => specBlobSizeItem i + specBlobSizeList is

end

/-! ### Commits, records and the result store

The result store is a JSON object mapping commit hexshas to records; a
Python `dict` is embedded as an association list in insertion order, with
`d[k] = v` replacing in place when the key exists and appending otherwise.

`process_commit` formats `datetime.fromtimestamp(commit.committed_date)` with
`isoformat()`; that formatting is an injective function of
`committed_date`, so the record's timestamp field is embedded as the raw
epoch value.  Accessing `commit.tree` and traversing it can raise on a
damaged repository object; that possibility is embedded in the commit's
`treeEntries` field, the one failure point of `process_commit`'s own `try:`
body (its other operations are total and `get_annex_size_async` never
raises). -/

structure CommitRecord where
  /-- Embeds the `timestamp` field (the ISO string is an injective image of
  `committed_date`). -/
  timestamp : Nat
  git_size : Nat
  annex_size : Nat
  total_size : Nat
deriving DecidableEq

/-- A commit as consumed by the Collector. -/
structure Commit where
  hexsha : String
  committedDate : Nat
  /-- Result of `commit.tree.traverse()` enumeration: the root tree's
  entries, or a raised exception. -/
  treeEntries : Except String (List GitItem)

/-- The in-memory result store: a Python dict in insertion order. -/
abbrev Store := List (String × CommitRecord)

/-- `k in d` for the store dict. -/
def storeContains (s : Store) (k : String) : Bool :=
  s.any (fun p => p.1 == k)

/-- `d[k]` for the store dict, as an option. -/
def storeLookup (s : Store) (k : String) : Option CommitRecord :=
  (s.find? (fun p => p.1 == k)).map (fun p => p.2)

/-- `d[k] = v` for the store dict: replace in place if present, else append. -/
def storeInsert (s : Store) (k : String) (v : CommitRecord) : Store :=
  if storeContains s k then
    s.map (fun p => if p.1 == k then (k, v) else p)
  else
    s ++ [(k, v)]

/-- The record assembled at lines 79–84 of `process_commit`. -/
def mkRecord (committedDate gitSize annexSize : Nat) : CommitRecord :=
  { timestamp := committedDate
    git_size := gitSize
    annex_size := annexSize
    total_size := gitSize + annexSize }

/-- `process_commit` (lines 64–89): compute the timestamp, the annex size
(via the adapter, which never raises) and the git size, store the record
under the commit's hexsha, and flush.  If the `try:` body raises (tree
enumeration), the exception is caught, logged, and the commit is skipped:
the store is returned unchanged.  `oracle` gives the subprocess outcome of
the one oracle query issued for a hexsha. -/
def process_commit (oracle : String → OracleOutcome) (hasAnnex : Bool)
    (c : Commit) (results : Store) : Store :=
  match c.treeEntries with
  | .error _ => results
  | .ok entries =>
    let annexSize := get_annex_size_async hasAnnex (oracle c.hexsha)
    let gitSize := git_size entries
    storeInsert results c.hexsha (mkRecord c.committedDate gitSize annexSize)

/-- Line 125: the commits whose hexsha is not already a key of the loaded
store. -/
def commitsToProcess (allCommits : List Commit) (results : Store) :
    List Commit :=
  allCommits.filter (fun c => !(storeContains results c.hexsha))

/-- `get_git_and_annex_sizes_async` (lines 107–135), from the point where the
existing results are loaded: filter out already-processed commits and fold
`process_commit` over the remainder.  The durable file always holds the store
flushed by the latest `process_commit`, so the function's return value is
also the final file content. -/
def collectorRun (oracle : String → OracleOutcome) (hasAnnex : Bool)
    (allCommits : List Commit) (loaded : Store) : Store :=
  (commitsToProcess allCommits loaded).foldl
    (fun results c => process_commit oracle hasAnnex c results) loaded

end GitAnnexLogStats

namespace PlotLogStats

/-! ### The monthly aggregator of `plot-log-stats.py`

Timestamps are consumed only through `strftime('%Y-%m')` month buckets (and
the min/max over full timestamps, whose month equals the min/max month since
truncation to a month is monotone), so a parsed timestamp is embedded at
month granularity as a linear month index `year * 12 + (month - 1)`; the
`'YYYY-MM'` string order used by `sort` and `sorted` coincides with the
numeric order of these indices.

A loaded record's fields can be malformed: `datetime.fromisoformat` can raise
on the timestamp, and any of the three size keys can be missing
(`KeyError`).  A raw record therefore carries each field as an `Option`,
`none` embedding the raising/missing case. -/

/-- Linear month index. -/
abbrev Month := Nat

/-- `year * 12 + (month - 1)` for a calendar `YYYY-MM`. -/
def mkMonth (year month : Nat) : Month :=
  year * 12 + (month - 1)

/-- The per-month size triple. -/
structure SizeRec where
  git_size : Nat
  annex_size : Nat
  total_size : Nat
deriving DecidableEq

/-- `{'git_size': 0, 'annex_size': 0, 'total_size': 0}`. -/
def zeroSizes : SizeRec :=
  { git_size := 0, annex_size := 0, total_size := 0 }

/-- A record as read from a result-store JSON file.  `timestamp` is the
month of the parsed timestamp, `none` when `datetime.fromisoformat` raises;
each size is `none` when its key is missing. -/
structure RawRecord where
  timestamp : Option Month
  git_size : Option Nat
  annex_size : Option Nat
  total_size : Option Nat
deriving DecidableEq

/-- `get_month_range` (lines 85–112): the min and max timestamp over every
record whose timestamp parses (across all loaded stores), widened to the
inclusive list of months in between; empty when no timestamp parses. -/
def monthRange (allData : List (List RawRecord)) : List Month :=
  let months := (allData.map (fun repo => repo.filterMap RawRecord.timestamp)).flatten
  match months with
  | [] => []
  | m :: ms =>
    let lo := ms.foldl Nat.min m
    let hi := ms.foldl Nat.max m
    (List.range (hi + 1 - lo)).map (fun i => lo + i)

/-- The `try:` body of the per-record loop in `aggregate_by_month`
(lines 126–136): parse the timestamp and read the three size keys; any
failure raises, the record is logged and skipped. -/
def parseRecord (r : RawRecord) : Option (Month × SizeRec) :=
  match r.timestamp, r.git_size, r.annex_size, r.total_size with
  | some m, some g, some a, some t =>
    some (m, { git_size := g, annex_size := a, total_size := t })
  | _, _, _, _ => none

/-- Dict lookup on a month-keyed association list. -/
def lookupMonth (l : List (Month × SizeRec)) (m : Month) : Option SizeRec :=
  (l.find? (fun p => p.1 == m)).map (fun p => p.2)

/-- Insert one sorted commit into the stable-sorted prefix: before the first
entry with a strictly larger-or-equal month reached from the left being kept
stable (the element being inserted comes earlier in the original order than
the tail it is inserted into). -/
def insertByMonth (e : Month × SizeRec) :
    List (Month × SizeRec) → List (Month × SizeRec)
  | [] => [e]
  | f :: fs => if e.1 ≤ f.1 then e :: f :: fs else f :: insertByMonth e fs

/-- `repo_commits.sort(key=lambda x: x['month'])` (line 138): a stable sort
by month. -/
def sortByMonth : List (Month × SizeRec) → List (Month × SizeRec)
  | [] => []
  | e :: es => insertByMonth e (sortByMonth es)

/-- One step of the loop at lines 141–144: keep, per month, the first record
whose `total_size` is not exceeded by a later one. -/
def pickMax (acc : List (Month × SizeRec)) (e : Month × SizeRec) :
    List (Month × SizeRec) :=
  match lookupMonth acc e.1 with
  | none => acc ++ [e]
  | some v =>
    if v.total_size < e.2.total_size then
      acc.map (fun p => if p.1 == e.1 then (e.1, e.2) else p)
    else acc

/-- Lines 124–144 of `aggregate_by_month` for one store: parse the records
(skipping malformed ones), sort chronologically, and keep the
maximum-total-size record of each month. -/
def repoMonthly (records : List RawRecord) : List (Month × SizeRec) :=
  (sortByMonth (records.filterMap parseRecord)).foldl pickMax []

/-- The carry-forward loop at lines 145–158 for one store: walk the month
range keeping `last_values` (initially zero), replacing it whenever the month
has a record, and emit this store's contribution for every month in order. -/
def carryForward (repoMonthlyData : List (Month × SizeRec)) :
    List Month → SizeRec → List SizeRec
  | [], _ => []
  | m :: ms, lastValues =>
    let cur := (lookupMonth repoMonthlyData m).getD lastValues
    cur :: carryForward repoMonthlyData ms cur

/-- Componentwise sum of two size triples. -/
def addSizes (a b : SizeRec) : SizeRec :=
  { git_size := a.git_size + b.git_size
    annex_size := a.annex_size + b.annex_size
    total_size := a.total_size + b.total_size }

/-- `monthly_totals[month][k] += last_values[k]` across the whole month
range: componentwise sum of the running totals and one store's carried
contributions. -/
def zipAdd (acc contribution : List SizeRec) : List SizeRec :=
  (acc.zip contribution).map (fun p => addSizes p.1 p.2)

/-- `aggregate_by_month` (lines 114–159): totals are initialized to zero for
every month of the range, then each store's carried-forward contribution is
added in; the result pairs each month of the range with its total. -/
def aggregate_by_month (allData : List (List RawRecord)) :
    List (Month × SizeRec) :=
  let allMonths := monthRange allData
  let totals := allData.foldl
    (fun acc records =>
      zipAdd acc (carryForward (repoMonthly records) allMonths zeroSizes))
    (allMonths.map (fun _ => zeroSizes))
  allMonths.zip totals

/-! ### Minimum-floor filtering in `create_plot` -/

/-- Stable insertion for `sorted` over month keys. -/
def insertMonth (m : Month) : List Month → List Month
  | [] => [m]
  | n :: ns => if m ≤ n then m :: n :: ns else n :: insertMonth m ns

/-- `sorted(monthly_data.keys())` (line 214). -/
def sortedMonths : List Month → List Month
  | [] => []
  | m :: ms => insertMonth m (sortedMonths ms)

/-- `monthly_data[month]['total_size']` for a month key of the series. -/
def totalAt (monthlyData : List (Month × SizeRec)) (m : Month) : Nat :=
  ((lookupMonth monthlyData m).getD zeroSizes).total_size

/-- Lines 214–220 of `create_plot`: the months of a group's series kept for
rendering, i.e. the sorted month keys whose `total_size` reaches the
minimum-size floor.  A group whose list comes back empty is reported with a
message and skipped, not treated as an error (lines 222–224). -/
def validMonths (monthlyData : List (Month × SizeRec)) (minTotalSize : Nat) :
    List Month :=
  (sortedMonths (monthlyData.map (fun p => p.1))).filter
    (fun m => minTotalSize ≤ totalAt monthlyData m)

end PlotLogStats

namespace GitAnnexLogStats

/-! ### Concrete scenario: a two-commit batch whose oracle fails once

Commit `"aaa"` has a 500-byte regular file; commit `"bbb"` has a 700-byte
regular file.  The oracle exits nonzero for `"aaa"` and answers `"42"` for
every other commit. -/

/-- Oracle outcomes: nonzero exit for commit `"aaa"`, a well-formed `"42"`
response for everything else. -/
def cexOracle : String → OracleOutcome := fun h =>
  if h == "aaa" then OracleOutcome.exitNonzero "annex failed"
  else OracleOutcome.okJson (some "42")

/-- First commit of the batch (the one whose oracle query fails). -/
def cexCommitA : Commit :=
  { hexsha := "aaa", committedDate := 1000
    treeEntries := Except.ok [GitItem.blob 33188 500] }

/-- Second commit of the batch (oracle succeeds). -/
def cexCommitB : Commit :=
  { hexsha := "bbb", committedDate := 2000
    treeEntries := Except.ok [GitItem.blob 33188 700] }

end GitAnnexLogStats

/-! ## Generic list lemmas -/

theorem find_append_of_none {α : Type} (p : α → Bool) (l1 l2 : List α)
    (h : l1.find? p = none) : (l1 ++ l2).find? p = l2.find? p := by
  induction l1 with
  | nil => rfl
  | cons a l1 ih =>
    by_cases ha : p a
    · simp [List.find?_cons, ha] at h
    · simp only [List.find?_cons, ha] at h
      simp only [List.cons_append, List.find?_cons, ha]
      exact ih h

theorem dropWhile_eq_self_of_none {α : Type} (p : α → Bool) (l : List α)
    (h : ∀ c ∈ l, p c = false) : l.dropWhile p = l := by
  cases l with
  | nil => rfl
  | cons a l => simp [List.dropWhile_cons, h a (List.mem_cons_self a l)]

theorem mem_dropWhile_of_mem {α : Type} (p : α → Bool) (l : List α) (c : α)
    (hc : c ∈ l) (hp : p c = false) : c ∈ l.dropWhile p := by
  induction l with
  | nil => cases hc
  | cons a l ih =>
    by_cases ha : p a
    · rcases List.mem_cons.mp hc with rfl | hmem
      · rw [ha] at hp; cases hp
      · simpa [List.dropWhile_cons, ha] using ih hmem
    · simpa [List.dropWhile_cons, ha] using hc

namespace GitAnnexLogStats

/-! ## Store (Python dict) lemmas -/

theorem storeContains_map_replace (s : Store) (k k2 : String) (v : CommitRecord) :
    storeContains (s.map (fun p => if p.1 == k then (k, v) else p)) k2
      = storeContains s k2 := by
  induction s with
  | nil => rfl
  | cons p ps ih =>
    by_cases h : p.1 = k
    · simp [storeContains, List.any_cons, h] at ih ⊢
      rw [ih]
    · simp [storeContains, List.any_cons, h] at ih ⊢
      rw [ih]

theorem storeLookup_cons_of_pos (p : String × CommitRecord) (s : Store)
    (k : String) (h : p.1 = k) : storeLookup (p :: s) k = some p.2 := by
  unfold storeLookup
  rw [List.find?_cons_of_pos _ (by simpa using h)]
  rfl

theorem storeLookup_cons_of_neg (p : String × CommitRecord) (s : Store)
    (k : String) (h : ¬ p.1 = k) : storeLookup (p :: s) k = storeLookup s k := by
  unfold storeLookup
  rw [List.find?_cons_of_neg _ (by simpa using h)]

theorem storeLookup_map_replace_self (s : Store) (k : String) (v : CommitRecord)
    (hc : storeContains s k = true) :
    storeLookup (s.map (fun p => if p.1 == k then (k, v) else p)) k = some v := by
  induction s with
  | nil => simp [storeContains] at hc
  | cons p ps ih =>
    rw [List.map_cons]
    by_cases h : p.1 = k
    · have hif : (if p.1 == k then (k, v) else p) = (k, v) := by simp [h]
      rw [hif, storeLookup_cons_of_pos _ _ _ rfl]
    · have hif : (if p.1 == k then (k, v) else p) = p := by simp [h]
      rw [hif, storeLookup_cons_of_neg _ _ _ h]
      apply ih
      have hp : (p.1 == k) = false := by simp [h]
      unfold storeContains at hc ⊢
      rw [List.any_cons, hp, Bool.false_or] at hc
      exact hc

theorem storeLookup_map_replace_ne (s : Store) (k k2 : String) (v : CommitRecord)
    (hne : k2 ≠ k) :
    storeLookup (s.map (fun p => if p.1 == k then (k, v) else p)) k2
      = storeLookup s k2 := by
  induction s with
  | nil => rfl
  | cons p ps ih =>
    rw [List.map_cons]
    by_cases h : p.1 = k
    · have hif : (if p.1 == k then (k, v) else p) = (k, v) := by simp [h]
      have hp2 : ¬ p.1 = k2 := by rw [h]; exact fun hkk => hne hkk.symm
      rw [hif, storeLookup_cons_of_neg _ _ _ (fun hkk => hne hkk.symm),
        storeLookup_cons_of_neg _ _ _ hp2, ih]
    · have hif : (if p.1 == k then (k, v) else p) = p := by simp [h]
      rw [hif]
      by_cases h2 : p.1 = k2
      · rw [storeLookup_cons_of_pos _ _ _ h2, storeLookup_cons_of_pos _ _ _ h2]
      · rw [storeLookup_cons_of_neg _ _ _ h2, storeLookup_cons_of_neg _ _ _ h2, ih]

theorem storeContains_insert (s : Store) (k k2 : String) (v : CommitRecord) :
    storeContains (storeInsert s k v) k2
      = (storeContains s k2 || k2 == k) := by
  unfold storeInsert
  by_cases hc : storeContains s k
  · rw [if_pos hc, storeContains_map_replace]
    by_cases hk : k2 = k
    · subst hk; simp [hc]
    · simp [hk]
  · rw [if_neg hc]
    by_cases hk : k2 = k
    · subst hk; simp [storeContains, List.any_append]
    · have h1 : (k == k2) = false := by simp [Ne.symm hk]
      have h2 : (k2 == k) = false := by simp [hk]
      simp [storeContains, List.any_append, h1, h2]

theorem storeLookup_insert_self (s : Store) (k : String) (v : CommitRecord) :
    storeLookup (storeInsert s k v) k = some v := by
  unfold storeInsert
  by_cases hc : storeContains s k
  · rw [if_pos hc]
    exact storeLookup_map_replace_self s k v hc
  · rw [if_neg hc]
    have hnone : s.find? (fun p => p.1 == k) = none := by
      rw [List.find?_eq_none]
      intro q hq hb
      apply hc
      unfold storeContains
      rw [List.any_eq_true]
      exact ⟨q, hq, hb⟩
    unfold storeLookup
    rw [find_append_of_none _ _ _ hnone, List.find?_cons_of_pos _ (by simp)]
    rfl

theorem storeLookup_insert_ne (s : Store) (k k2 : String) (v : CommitRecord)
    (hne : k2 ≠ k) : storeLookup (storeInsert s k v) k2 = storeLookup s k2 := by
  unfold storeInsert
  by_cases hc : storeContains s k
  · rw [if_pos hc]
    exact storeLookup_map_replace_ne s k k2 v hne
  · rw [if_neg hc]
    by_cases hfound : (s.find? (fun p => p.1 == k2)).isSome
    · obtain ⟨q, hq⟩ := Option.isSome_iff_exists.mp hfound
      simp [storeLookup, List.find?_append, hq]
    · have hnone : s.find? (fun p => p.1 == k2) = none := by
        cases hh : s.find? (fun p => p.1 == k2)
        · rfl
        · rw [hh] at hfound; simp at hfound
      unfold storeLookup
      rw [find_append_of_none _ _ _ hnone, hnone,
        List.find?_cons_of_neg _ (by simpa using fun hkk => hne hkk.symm)]
      rfl

theorem storeInsert_length (s : Store) (k : String) (v : CommitRecord) :
    (storeInsert s k v).length
      = if storeContains s k then s.length else s.length + 1 := by
  unfold storeInsert
  by_cases hc : storeContains s k
  · simp [hc]
  · simp [hc]

/-! ## Traversal-loop lemmas -/

theorem process_commit_of_ok (oracle : String → OracleOutcome) (ha : Bool)
    (c : Commit) (s : Store) (entries : List GitItem)
    (h : c.treeEntries = Except.ok entries) :
    process_commit oracle ha c s
      = storeInsert s c.hexsha
          (mkRecord c.committedDate (git_size entries)
            (get_annex_size_async ha (oracle c.hexsha))) := by
  unfold process_commit
  rw [h]

theorem process_commit_preserves_contains (oracle : String → OracleOutcome)
    (ha : Bool) (c : Commit) (s : Store) (k : String)
    (h : storeContains s k = true) :
    storeContains (process_commit oracle ha c s) k = true := by
  unfold process_commit
  cases c.treeEntries with
  | error e => exact h
  | ok entries => rw [storeContains_insert, h]; rfl

theorem process_commit_lookup_ne (oracle : String → OracleOutcome) (ha : Bool)
    (c : Commit) (s : Store) (k : String) (h : c.hexsha ≠ k) :
    storeLookup (process_commit oracle ha c s) k = storeLookup s k := by
  unfold process_commit
  cases c.treeEntries with
  | error e => rfl
  | ok entries => exact storeLookup_insert_ne _ _ _ _ (fun hk => h hk.symm)

theorem foldProcess_preserves_contains (oracle : String → OracleOutcome)
    (ha : Bool) :
    ∀ (cs : List Commit) (s : Store) (k : String),
      storeContains s k = true →
      storeContains
        (cs.foldl (fun r c => process_commit oracle ha c r) s) k = true := by
  intro cs
  induction cs with
  | nil => intro s k h; exact h
  | cons c cs ih =>
    intro s k h
    rw [List.foldl_cons]
    exact ih _ _ (process_commit_preserves_contains oracle ha c s k h)

theorem foldProcess_lookup_of_not_mem (oracle : String → OracleOutcome)
    (ha : Bool) :
    ∀ (cs : List Commit) (s : Store) (k : String),
      (∀ c ∈ cs, c.hexsha ≠ k) →
      storeLookup (cs.foldl (fun r c => process_commit oracle ha c r) s) k
        = storeLookup s k := by
  intro cs
  induction cs with
  | nil => intro s k _; rfl
  | cons c cs ih =>
    intro s k h
    rw [List.foldl_cons,
      ih _ _ (fun c' hc' => h c' (List.mem_cons_of_mem _ hc')),
      process_commit_lookup_ne oracle ha c s k (h c (List.mem_cons_self c cs))]

theorem foldProcess_lookup_of_mem (oracle : String → OracleOutcome) (ha : Bool) :
    ∀ (cs : List Commit) (s : Store) (c : Commit), c ∈ cs →
      (cs.map Commit.hexsha).Nodup →
      ∀ entries, c.treeEntries = Except.ok entries →
      storeLookup (cs.foldl (fun r c => process_commit oracle ha c r) s) c.hexsha
        = some (mkRecord c.committedDate (git_size entries)
            (get_annex_size_async ha (oracle c.hexsha))) := by
  intro cs
  induction cs with
  | nil => intro s c hc; cases hc
  | cons c0 cs ih =>
    intro s c hc hnodup entries hok
    rw [List.map_cons, List.nodup_cons] at hnodup
    rcases List.mem_cons.mp hc with rfl | hmem
    · rw [List.foldl_cons, process_commit_of_ok oracle ha c s entries hok,
        foldProcess_lookup_of_not_mem oracle ha cs _ c.hexsha
          (fun c' hc' heq => hnodup.1 (by
            rw [← heq]; exact List.mem_map_of_mem Commit.hexsha hc')),
        storeLookup_insert_self]
    · rw [List.foldl_cons]
      exact ih _ c hmem hnodup.2 entries hok

theorem foldProcess_contains_of_mem (oracle : String → OracleOutcome)
    (ha : Bool) :
    ∀ (cs : List Commit) (s : Store) (c : Commit), c ∈ cs →
      (∃ entries, c.treeEntries = Except.ok entries) →
      storeContains (cs.foldl (fun r c => process_commit oracle ha c r) s)
        c.hexsha = true := by
  intro cs
  induction cs with
  | nil => intro s c hc; cases hc
  | cons c0 cs ih =>
    intro s c hc hok
    rcases List.mem_cons.mp hc with rfl | hmem
    · obtain ⟨entries, he⟩ := hok
      rw [List.foldl_cons]
      apply foldProcess_preserves_contains
      rw [process_commit_of_ok oracle ha c s entries he, storeContains_insert]
      simp
    · rw [List.foldl_cons]
      exact ih _ c hmem hok

theorem foldProcess_length (oracle : String → OracleOutcome) (ha : Bool) :
    ∀ (cs : List Commit) (s : Store),
      (∀ c ∈ cs, ∃ entries, c.treeEntries = Except.ok entries) →
      (cs.map Commit.hexsha).Nodup →
      (∀ c ∈ cs, storeContains s c.hexsha = false) →
      (cs.foldl (fun r c => process_commit oracle ha c r) s).length
        = s.length + cs.length := by
  intro cs
  induction cs with
  | nil => intro s _ _ _; rfl
  | cons c0 cs ih =>
    intro s hok hnodup hfresh
    rw [List.map_cons, List.nodup_cons] at hnodup
    obtain ⟨entries, he⟩ := hok c0 (List.mem_cons_self c0 cs)
    rw [List.foldl_cons, process_commit_of_ok oracle ha c0 s entries he]
    have hlen : (storeInsert s c0.hexsha
        (mkRecord c0.committedDate (git_size entries)
          (get_annex_size_async ha (oracle c0.hexsha)))).length
          = s.length + 1 := by
      rw [storeInsert_length, if_neg]
      rw [hfresh c0 (List.mem_cons_self c0 cs)]
      exact Bool.false_ne_true
    have hfresh2 : ∀ c ∈ cs,
        storeContains (storeInsert s c0.hexsha
          (mkRecord c0.committedDate (git_size entries)
            (get_annex_size_async ha (oracle c0.hexsha)))) c.hexsha = false := by
      intro c hc
      rw [storeContains_insert, hfresh c (List.mem_cons_of_mem _ hc), Bool.false_or]
      have : ¬ c.hexsha = c0.hexsha := fun heq => hnodup.1 (by
        rw [← heq]; exact List.mem_map_of_mem Commit.hexsha hc)
      simpa using this
    rw [ih _ (fun c hc => hok c (List.mem_cons_of_mem _ hc)) hnodup.2 hfresh2,
      hlen, List.length_cons]
    omega

theorem commitsToProcess_nil_store (commits : List Commit) :
    commitsToProcess commits [] = commits := by
  unfold commitsToProcess
  have : ∀ c : Commit, (!(storeContains [] c.hexsha)) = true := fun c => rfl
  simp [this]

theorem collectorRun_contains_of_mem (oracle : String → OracleOutcome)
    (ha : Bool) (commits : List Commit) (loaded : Store) (c : Commit)
    (hc : c ∈ commits) (hok : ∃ entries, c.treeEntries = Except.ok entries) :
    storeContains (collectorRun oracle ha commits loaded) c.hexsha = true := by
  unfold collectorRun
  by_cases hl : storeContains loaded c.hexsha
  · exact foldProcess_preserves_contains oracle ha _ _ _ hl
  · have hmem : c ∈ commitsToProcess commits loaded := by
      unfold commitsToProcess
      rw [List.mem_filter]
      exact ⟨hc, by simp [hl]⟩
    exact foldProcess_contains_of_mem oracle ha _ _ c hmem hok

end GitAnnexLogStats

/-! ## Lemmas about the Python string primitives -/

theorem digit_not_whitespace (c : Char) (h : c.isDigit = true) :
    c.isWhitespace = false := by
  cases hw : c.isWhitespace
  · rfl
  · exfalso
    simp only [Char.isWhitespace, Bool.or_eq_true, decide_eq_true_eq] at hw
    rcases hw with ((h1 | h2) | h3) | h4 <;> subst_vars <;>
      exact absurd h (by decide)

theorem splitWsAcc_token (rest : List Char) :
    ∀ (tok acc : List Char),
      (∀ c ∈ tok, c.isWhitespace = false) →
      (acc ≠ [] ∨ tok ≠ []) →
      splitWsAcc (tok ++ ' ' :: rest) acc
        = (acc.reverse ++ tok) :: splitWsAcc rest [] := by
  intro tok
  induction tok with
  | nil =>
    intro acc _ hne
    have hacc : acc ≠ [] := by
      rcases hne with h | h
      · exact h
      · exact absurd rfl h
    have hempty : acc.isEmpty = false := by
      cases acc
      · exact absurd rfl hacc
      · rfl
    simp [splitWsAcc, hempty]
  | cons t ts ih =>
    intro acc hws _
    have htw : t.isWhitespace = false := hws t (List.mem_cons_self t ts)
    have hstep : splitWsAcc ((t :: ts) ++ ' ' :: rest) acc
        = splitWsAcc (ts ++ ' ' :: rest) (t :: acc) := by
      simp [splitWsAcc, htw]
    rw [hstep, ih (t :: acc)
      (fun c hc => hws c (List.mem_cons_of_mem _ hc))
      (Or.inl (List.cons_ne_nil t acc))]
    simp

theorem splitWs_token (tok rest : List Char) (hne : tok ≠ [])
    (hws : ∀ c ∈ tok, c.isWhitespace = false) :
    splitWs (tok ++ ' ' :: rest) = tok :: splitWs rest := by
  unfold splitWs
  rw [splitWsAcc_token rest tok [] hws (Or.inr hne)]
  simp

theorem trimWs_of_no_ws (l : List Char)
    (h : ∀ c ∈ l, c.isWhitespace = false) : trimWs l = l := by
  unfold trimWs
  rw [dropWhile_eq_self_of_none _ _ h,
    dropWhile_eq_self_of_none _ _
      (fun c hc => h c (List.mem_reverse.mp hc)),
    List.reverse_reverse]

theorem mem_trimWs (l : List Char) (c : Char) (hc : c ∈ l)
    (hw : c.isWhitespace = false) : c ∈ trimWs l := by
  unfold trimWs
  rw [List.mem_reverse]
  apply mem_dropWhile_of_mem _ _ _ _ hw
  rw [List.mem_reverse]
  exact mem_dropWhile_of_mem _ _ _ hc hw

theorem pyIntNat_of_digits (l : List Char) (hne : l ≠ [])
    (hd : l.all Char.isDigit = true) :
    pyIntNat? l = some (natOfDigits l) := by
  have hws : ∀ c ∈ l, c.isWhitespace = false := fun c hc =>
    digit_not_whitespace c (by
      rw [List.all_eq_true] at hd
      exact hd c hc)
  unfold pyIntNat?
  rw [trimWs_of_no_ws l hws, if_pos ⟨hne, hd⟩]

theorem pyIntNat_of_mem_non_digit (l : List Char) (c : Char) (hc : c ∈ l)
    (hw : c.isWhitespace = false) (hd : c.isDigit = false) :
    pyIntNat? l = none := by
  unfold pyIntNat?
  rw [if_neg]
  intro hcond
  have hmem : c ∈ trimWs l := mem_trimWs l c hc hw
  rw [List.all_eq_true] at hcond
  have := hcond.2 c hmem
  rw [hd] at this
  cases this

namespace GitAnnexLogStats

/-! ## Size-oracle adapter lemmas -/

theorem get_annex_size_of_failed (o : OracleOutcome)
    (h : oracleFailed o = true) : get_annex_size_async true o = 0 := by
  cases o with
  | exitNonzero e => rfl
  | spawnError => rfl
  | badJson => rfl
  | okJson field =>
    have hred : oracleFailed (OracleOutcome.okJson field)
        = (match annexSizeTryBody (OracleOutcome.okJson field) with
           | .ok _ => false
           | .error _ => true) := rfl
    rw [hred] at h
    cases hb : annexSizeTryBody (OracleOutcome.okJson field) with
    | ok n => rw [hb] at h; cases h
    | error e => simp [get_annex_size_async, hb]

theorem get_annex_size_of_ok_body (o : OracleOutcome) (n : Nat)
    (h : annexSizeTryBody o = Except.ok n) :
    get_annex_size_async true o = n := by
  simp [get_annex_size_async, h]

theorem get_annex_size_of_not_failed (o : OracleOutcome)
    (h : oracleFailed o = false) :
    ∃ n, annexSizeTryBody o = Except.ok n
      ∧ get_annex_size_async true o = n := by
  cases o with
  | exitNonzero e =>
    have hred : oracleFailed (OracleOutcome.exitNonzero e) = true := rfl
    rw [hred] at h
    cases h
  | spawnError => exact absurd h (by decide)
  | badJson => exact absurd h (by decide)
  | okJson field =>
    have hred : oracleFailed (OracleOutcome.okJson field)
        = (match annexSizeTryBody (OracleOutcome.okJson field) with
           | .ok _ => false
           | .error _ => true) := rfl
    rw [hred] at h
    cases hb : annexSizeTryBody (OracleOutcome.okJson field) with
    | ok n => exact ⟨n, rfl, get_annex_size_of_ok_body _ n hb⟩
    | error e => rw [hb] at h; cases h

/-! ## Tracked-content size lemmas -/

theorem foldl_add_itemSize (l : List GitItem) (a : Nat) :
    l.foldl (fun acc i => acc + itemSize i) a
      = a + l.foldl (fun acc i => acc + itemSize i) 0 := by
  induction l generalizing a with
  | nil => simp
  | cons i l ih =>
    rw [List.foldl_cons, List.foldl_cons, ih (a + itemSize i),
      ih (0 + itemSize i)]
    omega

theorem countedSum_append (l1 l2 : List GitItem) :
    ((l1 ++ l2).filter isCountedBlob).foldl (fun acc i => acc + itemSize i) 0
      = (l1.filter isCountedBlob).foldl (fun acc i => acc + itemSize i) 0
        + (l2.filter isCountedBlob).foldl (fun acc i => acc + itemSize i) 0 := by
  rw [List.filter_append, List.foldl_append, foldl_add_itemSize]

theorem git_size_spec_aux (n : Nat) :
    (∀ i : GitItem, sizeOf i ≤ n →
      ((traverseItem i).filter isCountedBlob).foldl
        (fun acc x => acc + itemSize x) 0 = specBlobSizeItem i)
    ∧ (∀ es : List GitItem, sizeOf es ≤ n →
      ((traverseList es).filter isCountedBlob).foldl
        (fun acc x => acc + itemSize x) 0 = specBlobSizeList es) := by
  induction n with
  | zero =>
    constructor
    · intro i hi
      exfalso
      cases i <;> simp at hi
    · intro es hes
      exfalso
      cases es <;> simp at hes
  | succ n ih =>
    constructor
    · intro i hi
      cases i with
      | blob mode size =>
        by_cases hmode : mode = 0o120000
        · simp [traverseItem, specBlobSizeItem, isCountedBlob, hmode]
        · simp [traverseItem, specBlobSizeItem, isCountedBlob, hmode, itemSize]
      | tree entries =>
        have hsize : sizeOf entries ≤ n := by
          simp only [GitItem.tree.sizeOf_spec] at hi
          omega
        have hstep : traverseItem (GitItem.tree entries)
            = GitItem.tree entries :: traverseList entries := rfl
        rw [hstep]
        have hfilter : (GitItem.tree entries :: traverseList entries).filter
            isCountedBlob = (traverseList entries).filter isCountedBlob := by
          rw [List.filter_cons]
          simp [isCountedBlob]
        rw [hfilter, ih.2 entries hsize]
        rfl
    · intro es hes
      cases es with
      | nil => rfl
      | cons i is =>
        have hi : sizeOf i ≤ n := by
          simp only [List.cons.sizeOf_spec] at hes
          omega
        have his : sizeOf is ≤ n := by
          simp only [List.cons.sizeOf_spec] at hes
          omega
        have hstep : traverseList (i :: is)
            = traverseItem i ++ traverseList is := rfl
        rw [hstep, countedSum_append, ih.1 i hi, ih.2 is his]
        rfl

theorem git_size_eq_spec (rootEntries : List GitItem) :
    git_size rootEntries = specBlobSizeList rootEntries :=
  (git_size_spec_aux (sizeOf rootEntries)).2 rootEntries le_rfl

end GitAnnexLogStats

namespace PlotLogStats

/-! ## Monthly aggregation lemmas -/

theorem addSizes_zero_left (v : SizeRec) : addSizes zeroSizes v = v := by
  cases v
  simp [addSizes, zeroSizes]

theorem carryForward_length (rm : List (Month × SizeRec)) :
    ∀ (ms : List Month) (lastValues : SizeRec),
      (carryForward rm ms lastValues).length = ms.length := by
  intro ms
  induction ms with
  | nil => intro l; rfl
  | cons m ms ih =>
    intro l
    simp [carryForward, ih]

theorem zipAdd_zeros :
    ∀ (ms : List Month) (c : List SizeRec), c.length = ms.length →
      zipAdd (ms.map (fun _ => zeroSizes)) c = c := by
  intro ms
  induction ms with
  | nil =>
    intro c hc
    cases c with
    | nil => rfl
    | cons v vs => simp at hc
  | cons m ms ih =>
    intro c hc
    cases c with
    | nil => simp at hc
    | cons v vs =>
      have htail : zipAdd (ms.map (fun _ => zeroSizes)) vs = vs :=
        ih vs (by simpa using hc)
      simp only [List.map_cons, zipAdd, List.zip_cons_cons, List.map_cons,
        addSizes_zero_left]
      unfold zipAdd at htail
      rw [htail]

theorem aggregate_by_month_single (records : List RawRecord) :
    aggregate_by_month [records]
      = (monthRange [records]).zip
          (carryForward (repoMonthly records) (monthRange [records])
            zeroSizes) := by
  have h : aggregate_by_month [records]
      = (monthRange [records]).zip
          (zipAdd ((monthRange [records]).map (fun _ => zeroSizes))
            (carryForward (repoMonthly records) (monthRange [records])
              zeroSizes)) := rfl
  rw [h, zipAdd_zeros _ _ (carryForward_length _ _ _)]

theorem zip_getD_snd (z : SizeRec) :
    ∀ (ms : List Month) (c : List SizeRec) (i : Nat),
      c.length = ms.length → i < ms.length →
      ((ms.zip c).getD i (0, z)).2 = c.getD i z := by
  intro ms
  induction ms with
  | nil =>
    intro c i _ hi
    simp at hi
  | cons m ms ih =>
    intro c i hc hi
    cases c with
    | nil => simp at hc
    | cons v vs =>
      cases i with
      | zero => rfl
      | succ i =>
        rw [List.zip_cons_cons, List.getD_cons_succ, List.getD_cons_succ]
        exact ih vs i (by simpa using hc) (by simpa using hi)

theorem carryForward_getD_succ_none (rm : List (Month × SizeRec)) (z : SizeRec) :
    ∀ (ms : List Month) (lastValues : SizeRec) (i : Nat),
      i + 1 < ms.length →
      lookupMonth rm (ms.getD (i + 1) 0) = none →
      (carryForward rm ms lastValues).getD (i + 1) z
        = (carryForward rm ms lastValues).getD i z := by
  intro ms
  induction ms with
  | nil =>
    intro l i hi _
    simp at hi
  | cons m ms ih =>
    intro l i hi hnone
    cases i with
    | zero =>
      cases ms with
      | nil => simp at hi
      | cons m2 ms2 =>
        have h2 : lookupMonth rm m2 = none := by simpa using hnone
        simp [carryForward, h2]
    | succ i =>
      have hi2 : i + 1 < ms.length := by simpa using hi
      have hnone2 : lookupMonth rm (ms.getD (i + 1) 0) = none := by
        simpa using hnone
      simp only [carryForward]
      rw [List.getD_cons_succ, List.getD_cons_succ]
      exact ih _ i hi2 hnone2

theorem carryForward_getD_of_prefix_none (rm : List (Month × SizeRec))
    (z : SizeRec) :
    ∀ (ms : List Month) (lastValues : SizeRec) (i : Nat),
      i < ms.length →
      (∀ j, j ≤ i → lookupMonth rm (ms.getD j 0) = none) →
      (carryForward rm ms lastValues).getD i z = lastValues := by
  intro ms
  induction ms with
  | nil =>
    intro l i hi _
    simp at hi
  | cons m ms ih =>
    intro l i hi hall
    have hm : lookupMonth rm m = none := by
      have h0 := hall 0 (Nat.zero_le i)
      simpa using h0
    cases i with
    | zero => simp [carryForward, hm]
    | succ i =>
      simp only [carryForward, hm, Option.getD_none]
      rw [List.getD_cons_succ]
      exact ih l i (by simpa using hi) (fun j hj => by
        have hj2 := hall (j + 1) (by omega)
        simpa using hj2)

/-! ## Sorting and floor-filter lemmas -/

theorem mem_insertMonth (m a : Month) :
    ∀ l : List Month, (a ∈ insertMonth m l ↔ a = m ∨ a ∈ l) := by
  intro l
  induction l with
  | nil => simp [insertMonth]
  | cons n ns ih =>
    by_cases h : m ≤ n
    · simp [insertMonth, h]
    · simp only [insertMonth, if_neg h, List.mem_cons, ih]
      tauto

theorem mem_sortedMonths (a : Month) :
    ∀ l : List Month, (a ∈ sortedMonths l ↔ a ∈ l) := by
  intro l
  induction l with
  | nil => simp [sortedMonths]
  | cons m ms ih =>
    simp only [sortedMonths, mem_insertMonth, ih, List.mem_cons]

/-! ## Malformed-record lemmas -/

theorem parseRecord_none_iff (r : RawRecord) :
    parseRecord r = none
      ↔ (r.timestamp = none ∨ r.git_size = none ∨ r.annex_size = none
          ∨ r.total_size = none) := by
  cases r with
  | mk t g a tot =>
    cases t <;> cases g <;> cases a <;> cases tot <;> simp [parseRecord]

theorem repoMonthly_cons_malformed (r : RawRecord) (records : List RawRecord)
    (h : parseRecord r = none) :
    repoMonthly (r :: records) = repoMonthly records := by
  unfold repoMonthly
  rw [List.filterMap_cons_none h]

theorem monthRange_cons_no_timestamp (r : RawRecord)
    (records : List RawRecord) (rest : List (List RawRecord))
    (h : r.timestamp = none) :
    monthRange ((r :: records) :: rest) = monthRange (records :: rest) := by
  unfold monthRange
  rw [List.map_cons, List.map_cons, List.filterMap_cons_none h]

theorem aggregate_cons_no_timestamp (r : RawRecord)
    (records : List RawRecord) (rest : List (List RawRecord))
    (h : r.timestamp = none) :
    aggregate_by_month ((r :: records) :: rest)
      = aggregate_by_month (records :: rest) := by
  have hparse : parseRecord r = none :=
    (parseRecord_none_iff r).mpr (Or.inl h)
  have hmr := monthRange_cons_no_timestamp r records rest h
  have hrm := repoMonthly_cons_malformed r records hparse
  have h1 : aggregate_by_month ((r :: records) :: rest)
      = (monthRange ((r :: records) :: rest)).zip
          (List.foldl
            (fun acc recs => zipAdd acc
              (carryForward (repoMonthly recs)
                (monthRange ((r :: records) :: rest)) zeroSizes))
            (zipAdd
              ((monthRange ((r :: records) :: rest)).map (fun _ => zeroSizes))
              (carryForward (repoMonthly (r :: records))
                (monthRange ((r :: records) :: rest)) zeroSizes))
            rest) := rfl
  have h2 : aggregate_by_month (records :: rest)
      = (monthRange (records :: rest)).zip
          (List.foldl
            (fun acc recs => zipAdd acc
              (carryForward (repoMonthly recs)
                (monthRange (records :: rest)) zeroSizes))
            (zipAdd
              ((monthRange (records :: rest)).map (fun _ => zeroSizes))
              (carryForward (repoMonthly records)
                (monthRange (records :: rest)) zeroSizes))
            rest) := rfl
  rw [h1, h2, hmr, hrm]

end PlotLogStats

namespace GitAnnexLogStats

theorem collectorRun_of_empty_toProcess (oracle : String → OracleOutcome)
    (ha : Bool) (commits : List Commit) (s : Store)
    (h : commitsToProcess commits s = []) :
    collectorRun oracle ha commits s = s := by
  unfold collectorRun
  rw [h, List.foldl_nil]

theorem annexSizeTryBody_okJson_cons (s : String) (tok : List Char)
    (toks : List (List Char)) (h : splitWs s.data = tok :: toks) :
    annexSizeTryBody (OracleOutcome.okJson (some s))
      = match pyIntNat? tok with
        | some n => Except.ok n
        | none => Except.error "ValueError: invalid literal for int" := by
  have h0 : annexSizeTryBody (OracleOutcome.okJson (some s))
      = match splitWs s.data with
        | [] => Except.error "IndexError: split produced no tokens"
        | tok :: _ =>
          match pyIntNat? tok with
          | some n => Except.ok n
          | none => Except.error "ValueError: invalid literal for int" := rfl
  rw [h0, h]

end GitAnnexLogStats

/-! ## The claims -/

/-- C1 counterexample: with a batch of N = 2 unprocessed commits whose size
oracle fails for commit `"aaa"` only, the final store holds 2 entries (not
N − 1 = 1), and the failing commit is present — with a real tracked-content
size of 500 and an annex size of 0 — rather than absent and eligible for
retry: `get_annex_size_async` swallows the failure and returns 0, so
`process_commit` still stores the commit. -/
theorem collector_oracle_failure_commit_still_stored :
    (GitAnnexLogStats.collectorRun GitAnnexLogStats.cexOracle true
        [GitAnnexLogStats.cexCommitA, GitAnnexLogStats.cexCommitB] []).length = 2
    ∧ GitAnnexLogStats.storeLookup
        (GitAnnexLogStats.collectorRun GitAnnexLogStats.cexOracle true
          [GitAnnexLogStats.cexCommitA, GitAnnexLogStats.cexCommitB] []) "aaa"
      = some { timestamp := 1000, git_size := 500, annex_size := 0
               total_size := 500 } := by
  decide

/-- C1 (amended): if the size oracle fails for exactly one commit in a batch
of N unprocessed commits (and succeeds for all others), the final store
contains all N entries: every commit is stored with its real tracked-content
size and the adapter's returned annex size, the failing commit is present
with annex size 0 (so it is not eligible for retry), and each other commit
carries its real oracle-derived value. -/
theorem collector_oracle_failure_store_contents
    (oracle : String → OracleOutcome) (commits : List GitAnnexLogStats.Commit)
    (cF : GitAnnexLogStats.Commit)
    (hok : ∀ c ∈ commits, ∃ entries,
      c.treeEntries = Except.ok entries)
    (hnodup : (commits.map GitAnnexLogStats.Commit.hexsha).Nodup)
    (hmem : cF ∈ commits)
    (hfail : GitAnnexLogStats.oracleFailed (oracle cF.hexsha) = true)
    (hrest : ∀ c ∈ commits, c.hexsha ≠ cF.hexsha →
      GitAnnexLogStats.oracleFailed (oracle c.hexsha) = false) :
    (GitAnnexLogStats.collectorRun oracle true commits []).length
        = commits.length
    ∧ (∀ c ∈ commits, ∀ entries, c.treeEntries = Except.ok entries →
        GitAnnexLogStats.storeLookup
            (GitAnnexLogStats.collectorRun oracle true commits []) c.hexsha
          = some (GitAnnexLogStats.mkRecord c.committedDate
              (GitAnnexLogStats.git_size entries)
              (GitAnnexLogStats.get_annex_size_async true (oracle c.hexsha))))
    ∧ GitAnnexLogStats.get_annex_size_async true (oracle cF.hexsha) = 0
    ∧ (∀ c ∈ commits, c.hexsha ≠ cF.hexsha →
        ∃ n, GitAnnexLogStats.annexSizeTryBody (oracle c.hexsha) = Except.ok n
          ∧ GitAnnexLogStats.get_annex_size_async true (oracle c.hexsha) = n) := by
  have hrun : GitAnnexLogStats.collectorRun oracle true commits []
      = commits.foldl
          (fun r c => GitAnnexLogStats.process_commit oracle true c r) [] := by
    unfold GitAnnexLogStats.collectorRun
    rw [GitAnnexLogStats.commitsToProcess_nil_store]
  refine ⟨?_, ?_, ?_, ?_⟩
  · rw [hrun, GitAnnexLogStats.foldProcess_length oracle true commits [] hok
      hnodup (fun c _ => rfl)]
    simp
  · intro c hc entries he
    rw [hrun]
    exact GitAnnexLogStats.foldProcess_lookup_of_mem oracle true commits []
      c hc hnodup entries he
  · exact GitAnnexLogStats.get_annex_size_of_failed _ hfail
  · intro c hc hne
    exact GitAnnexLogStats.get_annex_size_of_not_failed _ (hrest c hc hne)

/-- C1 witness: the amended statement instantiated on the concrete two-commit
batch whose oracle fails for `"aaa"` and answers `"42"` for `"bbb"`. -/
theorem collector_oracle_failure_store_contents_witness :
    (GitAnnexLogStats.collectorRun GitAnnexLogStats.cexOracle true
        [GitAnnexLogStats.cexCommitA, GitAnnexLogStats.cexCommitB] []).length = 2
    ∧ GitAnnexLogStats.get_annex_size_async true
        (GitAnnexLogStats.cexOracle "aaa") = 0 := by
  have h := collector_oracle_failure_store_contents GitAnnexLogStats.cexOracle
    [GitAnnexLogStats.cexCommitA, GitAnnexLogStats.cexCommitB]
    GitAnnexLogStats.cexCommitA
    (by
      intro c hc
      rcases List.mem_cons.mp hc with rfl | hc2
      · exact ⟨[GitAnnexLogStats.GitItem.blob 33188 500], rfl⟩
      · rw [List.mem_singleton] at hc2
        subst hc2
        exact ⟨[GitAnnexLogStats.GitItem.blob 33188 700], rfl⟩)
    (by decide)
    (List.mem_cons_self _ _)
    (by decide)
    (by
      intro c hc hne
      rcases List.mem_cons.mp hc with rfl | hc2
      · exact absurd rfl hne
      · rw [List.mem_singleton] at hc2
        subst hc2
        decide)
  exact ⟨h.1, h.2.2.1⟩

/-- C2: running the Collector a second time in immediate succession against
an unchanged repository (same commit list, same oracle behavior) and the same
output file — so the second run loads the store left by the first — processes
zero new commits (the set difference against the loaded store is empty) and
returns a store identical to the first run's. -/
theorem collector_second_run_identical (oracle : String → OracleOutcome)
    (hasAnnex : Bool) (commits : List GitAnnexLogStats.Commit)
    (loaded : GitAnnexLogStats.Store)
    (hok : ∀ c ∈ commits, ∃ entries, c.treeEntries = Except.ok entries) :
    GitAnnexLogStats.commitsToProcess commits
        (GitAnnexLogStats.collectorRun oracle hasAnnex commits loaded) = []
    ∧ GitAnnexLogStats.collectorRun oracle hasAnnex commits
        (GitAnnexLogStats.collectorRun oracle hasAnnex commits loaded)
      = GitAnnexLogStats.collectorRun oracle hasAnnex commits loaded := by
  have hnil : GitAnnexLogStats.commitsToProcess commits
      (GitAnnexLogStats.collectorRun oracle hasAnnex commits loaded) = [] := by
    unfold GitAnnexLogStats.commitsToProcess
    rw [List.filter_eq_nil_iff]
    intro c hc
    rw [GitAnnexLogStats.collectorRun_contains_of_mem oracle hasAnnex commits
      loaded c hc (hok c hc)]
    decide
  exact ⟨hnil,
    GitAnnexLogStats.collectorRun_of_empty_toProcess oracle hasAnnex commits
      _ hnil⟩

/-- C2 witness: a one-commit repository processed from an empty store; the
second run has an empty difference set and returns the same store. -/
theorem collector_second_run_identical_witness :
    GitAnnexLogStats.commitsToProcess [GitAnnexLogStats.cexCommitB]
        (GitAnnexLogStats.collectorRun (fun _ => OracleOutcome.badJson) true
          [GitAnnexLogStats.cexCommitB] []) = []
    ∧ GitAnnexLogStats.collectorRun (fun _ => OracleOutcome.badJson) true
        [GitAnnexLogStats.cexCommitB]
        (GitAnnexLogStats.collectorRun (fun _ => OracleOutcome.badJson) true
          [GitAnnexLogStats.cexCommitB] [])
      = GitAnnexLogStats.collectorRun (fun _ => OracleOutcome.badJson) true
          [GitAnnexLogStats.cexCommitB] [] :=
  collector_second_run_identical (fun _ => OracleOutcome.badJson) true
    [GitAnnexLogStats.cexCommitB] []
    (by
      intro c hc
      rw [List.mem_singleton] at hc
      subst hc
      exact ⟨[GitAnnexLogStats.GitItem.blob 33188 700], rfl⟩)

/-- C3: the Size Oracle Adapter parses `"819104023 (+ 7 unknown size)"` to
exactly 819104023; in general, whenever the size field consists of a leading
all-digit token followed by a space and any annotation, the adapter returns
the numeric value of that leading token alone. -/
theorem annex_size_parses_leading_numeric_token :
    GitAnnexLogStats.get_annex_size_async true
        (OracleOutcome.okJson (some "819104023 (+ 7 unknown size)"))
      = 819104023
    ∧ ∀ (s tok rest : String),
        tok.data ≠ [] →
        tok.data.all Char.isDigit = true →
        s.data = tok.data ++ ' ' :: rest.data →
        GitAnnexLogStats.get_annex_size_async true
            (OracleOutcome.okJson (some s)) = natOfDigits tok.data := by
  constructor
  · decide
  · intro s tok rest htne htd hdata
    have hws : ∀ c ∈ tok.data, c.isWhitespace = false := fun c hc =>
      digit_not_whitespace c (List.all_eq_true.mp htd c hc)
    have hsplit : splitWs s.data = tok.data :: splitWs rest.data := by
      rw [hdata]
      exact splitWs_token tok.data rest.data htne hws
    have hbody := GitAnnexLogStats.annexSizeTryBody_okJson_cons s tok.data
      _ hsplit
    rw [pyIntNat_of_digits tok.data htne htd] at hbody
    exact GitAnnexLogStats.get_annex_size_of_ok_body _ _ hbody

/-- C3 witness: the general leading-token statement applied to the concrete
field value `"7 x"`. -/
theorem annex_size_parses_leading_numeric_token_witness :
    GitAnnexLogStats.get_annex_size_async true
      (OracleOutcome.okJson (some "7 x")) = natOfDigits "7".data :=
  annex_size_parses_leading_numeric_token.2 "7 x" "7" "x"
    (by decide) (by decide) (by decide)

/-- C5: the tracked-content size is the sum of the sizes of the non-symlink
blob entries reachable from the commit tree: concretely, a tree with a
500-byte regular file (mode `0o100644`) and a 40-byte symlink entry (mode
`0o120000`) yields 500; in general `git_size` agrees with the direct
recursive sum over blob entries whose mode is not the symlink mode. -/
theorem git_size_excludes_symlink_blobs :
    GitAnnexLogStats.git_size
        [GitAnnexLogStats.GitItem.blob 0o100644 500,
         GitAnnexLogStats.GitItem.blob 0o120000 40] = 500
    ∧ ∀ rootEntries, GitAnnexLogStats.git_size rootEntries
        = GitAnnexLogStats.specBlobSizeList rootEntries :=
  ⟨by decide, GitAnnexLogStats.git_size_eq_spec⟩

/-- C6: across any Collector invocation, every key present in the loaded
store is still present afterwards — with its original record untouched — and
the Collector never removes a key. -/
theorem collector_store_keys_monotone (oracle : String → OracleOutcome)
    (hasAnnex : Bool) (commits : List GitAnnexLogStats.Commit)
    (loaded : GitAnnexLogStats.Store) (k : String)
    (h : GitAnnexLogStats.storeContains loaded k = true) :
    GitAnnexLogStats.storeContains
        (GitAnnexLogStats.collectorRun oracle hasAnnex commits loaded) k = true
    ∧ GitAnnexLogStats.storeLookup
        (GitAnnexLogStats.collectorRun oracle hasAnnex commits loaded) k
      = GitAnnexLogStats.storeLookup loaded k := by
  constructor
  · unfold GitAnnexLogStats.collectorRun
    exact GitAnnexLogStats.foldProcess_preserves_contains oracle hasAnnex _ _ _ h
  · unfold GitAnnexLogStats.collectorRun
    apply GitAnnexLogStats.foldProcess_lookup_of_not_mem
    intro c hc heq
    unfold GitAnnexLogStats.commitsToProcess at hc
    rw [List.mem_filter] at hc
    have h2 := hc.2
    rw [heq, h] at h2
    exact absurd h2 (by decide)

/-- C6 witness: a loaded store with key `"k0"` is preserved, record and all,
by a run that processes one fresh commit. -/
theorem collector_store_keys_monotone_witness :
    GitAnnexLogStats.storeContains
        (GitAnnexLogStats.collectorRun (fun _ => OracleOutcome.badJson) false
          [GitAnnexLogStats.cexCommitB]
          [("k0", { timestamp := 1, git_size := 2, annex_size := 3
                    total_size := 5 })]) "k0" = true
    ∧ GitAnnexLogStats.storeLookup
        (GitAnnexLogStats.collectorRun (fun _ => OracleOutcome.badJson) false
          [GitAnnexLogStats.cexCommitB]
          [("k0", { timestamp := 1, git_size := 2, annex_size := 3
                    total_size := 5 })]) "k0"
      = GitAnnexLogStats.storeLookup
          [("k0", { timestamp := 1, git_size := 2, annex_size := 3
                    total_size := 5 })] "k0" :=
  collector_store_keys_monotone (fun _ => OracleOutcome.badJson) false
    [GitAnnexLogStats.cexCommitB]
    [("k0", { timestamp := 1, git_size := 2, annex_size := 3
              total_size := 5 })] "k0" (by decide)

/-- C4: with one result store holding commits only in 2023-01 (total 100) and
2023-04 (total 400), the monthly series reports total 100 for 2023-02 and
2023-03 and 400 for 2023-04; in general (for a single store), a month of the
range with no commit inherits the previous month's aggregated values, and a
month preceded by no commit at all reports zero. -/
theorem monthly_carry_forward :
    PlotLogStats.aggregate_by_month
        [[⟨some (PlotLogStats.mkMonth 2023 1), some 100, some 0, some 100⟩,
          ⟨some (PlotLogStats.mkMonth 2023 4), some 400, some 0, some 400⟩]]
      = [(PlotLogStats.mkMonth 2023 1, ⟨100, 0, 100⟩),
         (PlotLogStats.mkMonth 2023 2, ⟨100, 0, 100⟩),
         (PlotLogStats.mkMonth 2023 3, ⟨100, 0, 100⟩),
         (PlotLogStats.mkMonth 2023 4, ⟨400, 0, 400⟩)]
    ∧ (∀ (records : List PlotLogStats.RawRecord) (i : Nat),
        i + 1 < (PlotLogStats.monthRange [records]).length →
        PlotLogStats.lookupMonth (PlotLogStats.repoMonthly records)
            ((PlotLogStats.monthRange [records]).getD (i + 1) 0) = none →
        ((PlotLogStats.aggregate_by_month [records]).getD (i + 1)
            (0, PlotLogStats.zeroSizes)).2
          = ((PlotLogStats.aggregate_by_month [records]).getD i
              (0, PlotLogStats.zeroSizes)).2)
    ∧ (∀ (records : List PlotLogStats.RawRecord) (i : Nat),
        i < (PlotLogStats.monthRange [records]).length →
        (∀ j, j ≤ i →
          PlotLogStats.lookupMonth (PlotLogStats.repoMonthly records)
            ((PlotLogStats.monthRange [records]).getD j 0) = none) →
        ((PlotLogStats.aggregate_by_month [records]).getD i
            (0, PlotLogStats.zeroSizes)).2 = PlotLogStats.zeroSizes) := by
  refine ⟨by decide, ?_, ?_⟩
  · intro records i hi hnone
    rw [PlotLogStats.aggregate_by_month_single records,
      PlotLogStats.zip_getD_snd PlotLogStats.zeroSizes _ _ (i + 1)
        (PlotLogStats.carryForward_length _ _ _) hi,
      PlotLogStats.zip_getD_snd PlotLogStats.zeroSizes _ _ i
        (PlotLogStats.carryForward_length _ _ _) (by omega)]
    exact PlotLogStats.carryForward_getD_succ_none _ _ _ _ i hi hnone
  · intro records i hi hall
    rw [PlotLogStats.aggregate_by_month_single records,
      PlotLogStats.zip_getD_snd PlotLogStats.zeroSizes _ _ i
        (PlotLogStats.carryForward_length _ _ _) hi]
    exact PlotLogStats.carryForward_getD_of_prefix_none _ _ _ _ i hi hall

/-- C4 witness: the inheritance rule applied to the concrete 2023-01/2023-04
store at the empty month 2023-02 (index 1 of the range). -/
theorem monthly_carry_forward_witness :
    ((PlotLogStats.aggregate_by_month
        [[⟨some (PlotLogStats.mkMonth 2023 1), some 100, some 0, some 100⟩,
          ⟨some (PlotLogStats.mkMonth 2023 4), some 400, some 0, some 400⟩]]).getD
        1 (0, PlotLogStats.zeroSizes)).2
      = ((PlotLogStats.aggregate_by_month
          [[⟨some (PlotLogStats.mkMonth 2023 1), some 100, some 0, some 100⟩,
            ⟨some (PlotLogStats.mkMonth 2023 4), some 400, some 0,
              some 400⟩]]).getD 0 (0, PlotLogStats.zeroSizes)).2 :=
  monthly_carry_forward.2.1
    [⟨some (PlotLogStats.mkMonth 2023 1), some 100, some 0, some 100⟩,
     ⟨some (PlotLogStats.mkMonth 2023 4), some 400, some 0, some 400⟩]
    0 (by decide) (by decide)

/-- C7: the Size Oracle Adapter never raises to its caller: for every oracle
outcome, either the `try:` body raised and the adapter returned 0, or the
body completed with a value and the adapter returned it (0 when the annex
probe failed); a nonzero subprocess exit always yields 0. -/
theorem annex_adapter_never_raises (hasAnnex : Bool) (o : OracleOutcome) :
    ((∃ e, GitAnnexLogStats.annexSizeTryBody o = Except.error e
        ∧ GitAnnexLogStats.get_annex_size_async hasAnnex o = 0)
      ∨ (∃ n, GitAnnexLogStats.annexSizeTryBody o = Except.ok n
        ∧ GitAnnexLogStats.get_annex_size_async hasAnnex o
            = if hasAnnex then n else 0))
    ∧ ∀ stderr, GitAnnexLogStats.get_annex_size_async hasAnnex
        (OracleOutcome.exitNonzero stderr) = 0 := by
  constructor
  · cases hb : GitAnnexLogStats.annexSizeTryBody o with
    | ok n =>
      refine Or.inr ⟨n, rfl, ?_⟩
      cases hasAnnex <;> simp [GitAnnexLogStats.get_annex_size_async, hb]
    | error e =>
      refine Or.inl ⟨e, rfl, ?_⟩
      cases hasAnnex <;> simp [GitAnnexLogStats.get_annex_size_async, hb]
  · intro stderr
    cases hasAnnex <;> rfl

/-- C8: with monthly totals [50, 150, 300] and a floor of 100, exactly the
last two months are rendered; in general a month is rendered iff it is a key
of the series and its total reaches the floor, and a group with every total
below the floor yields an empty rendered series (the group is skipped with a
message, not an error). -/
theorem plot_minimum_floor_filtering :
    PlotLogStats.validMonths
        [(PlotLogStats.mkMonth 2023 1, ⟨50, 0, 50⟩),
         (PlotLogStats.mkMonth 2023 2, ⟨150, 0, 150⟩),
         (PlotLogStats.mkMonth 2023 3, ⟨300, 0, 300⟩)] 100
      = [PlotLogStats.mkMonth 2023 2, PlotLogStats.mkMonth 2023 3]
    ∧ (∀ (monthlyData : List (PlotLogStats.Month × PlotLogStats.SizeRec))
        (minTotalSize : Nat) (m : PlotLogStats.Month),
        m ∈ PlotLogStats.validMonths monthlyData minTotalSize
          ↔ (m ∈ monthlyData.map (fun p => p.1)
              ∧ minTotalSize ≤ PlotLogStats.totalAt monthlyData m))
    ∧ (∀ (monthlyData : List (PlotLogStats.Month × PlotLogStats.SizeRec))
        (minTotalSize : Nat),
        (∀ p ∈ monthlyData, p.2.total_size < minTotalSize) →
        PlotLogStats.validMonths monthlyData minTotalSize = []) := by
  refine ⟨by decide, ?_, ?_⟩
  · intro monthlyData minTotalSize m
    unfold PlotLogStats.validMonths
    rw [List.mem_filter, PlotLogStats.mem_sortedMonths]
    simp
  · intro monthlyData minTotalSize hbelow
    unfold PlotLogStats.validMonths
    rw [List.filter_eq_nil_iff]
    intro m hm
    rw [PlotLogStats.mem_sortedMonths] at hm
    obtain ⟨p, hp, hpm⟩ := List.mem_map.mp hm
    have hsome : (monthlyData.find? (fun q => q.1 == m)).isSome := by
      rw [List.find?_isSome]
      exact ⟨p, hp, by simp [hpm]⟩
    obtain ⟨q, hq⟩ := Option.isSome_iff_exists.mp hsome
    have hqmem := List.mem_of_find?_eq_some hq
    have htot : PlotLogStats.totalAt monthlyData m = q.2.total_size := by
      unfold PlotLogStats.totalAt PlotLogStats.lookupMonth
      rw [hq]
      rfl
    have hlt := hbelow q hqmem
    simp only [htot, decide_eq_true_eq]
    omega

/-- C8 witness: the empty-series case applied to a one-month group whose
total 1 is below the floor 5. -/
theorem plot_minimum_floor_filtering_witness :
    PlotLogStats.validMonths [(0, ⟨1, 0, 1⟩)] 5 = [] :=
  plot_minimum_floor_filtering.2.2 [(0, ⟨1, 0, 1⟩)] 5 (by decide)

/-- C9: the monthly aggregator skips exactly the records whose timestamp does
not parse or which lack a size field: such a record parses to `none`, drops
out of the per-store aggregation, and (when its timestamp is unparseable)
leaves the whole aggregation unchanged, while every well-formed record is
kept; no malformed record aborts the run. -/
theorem aggregator_skips_malformed_records (r : PlotLogStats.RawRecord)
    (records : List PlotLogStats.RawRecord)
    (rest : List (List PlotLogStats.RawRecord)) :
    (PlotLogStats.parseRecord r = none
      ↔ (r.timestamp = none ∨ r.git_size = none ∨ r.annex_size = none
          ∨ r.total_size = none))
    ∧ (PlotLogStats.parseRecord r = none →
        PlotLogStats.repoMonthly (r :: records)
          = PlotLogStats.repoMonthly records)
    ∧ (∀ m s, PlotLogStats.parseRecord r = some (m, s) →
        (r :: records).filterMap PlotLogStats.parseRecord
          = (m, s) :: records.filterMap PlotLogStats.parseRecord)
    ∧ (r.timestamp = none →
        PlotLogStats.aggregate_by_month ((r :: records) :: rest)
          = PlotLogStats.aggregate_by_month (records :: rest)) :=
  ⟨PlotLogStats.parseRecord_none_iff r,
   PlotLogStats.repoMonthly_cons_malformed r records,
   fun m s h => List.filterMap_cons_some h,
   PlotLogStats.aggregate_cons_no_timestamp r records rest⟩

/-- C9 witness: a record missing its `git_size` key parses to `none` and
drops out of the per-store aggregation; a record with an unparseable
timestamp leaves the aggregation of the remaining records unchanged. -/
theorem aggregator_skips_malformed_records_witness :
    PlotLogStats.parseRecord ⟨some 0, none, some 1, some 1⟩ = none
    ∧ PlotLogStats.repoMonthly
        [(⟨some 0, none, some 1, some 1⟩ : PlotLogStats.RawRecord)]
      = PlotLogStats.repoMonthly []
    ∧ PlotLogStats.aggregate_by_month
        [[⟨none, some 1, some 1, some 2⟩,
          ⟨some 0, some 3, some 4, some 7⟩]]
      = PlotLogStats.aggregate_by_month [[⟨some 0, some 3, some 4, some 7⟩]] := by
  refine ⟨by decide, ?_, ?_⟩
  · exact (aggregator_skips_malformed_records
      ⟨some 0, none, some 1, some 1⟩ [] []).2.1 (by decide)
  · exact (aggregator_skips_malformed_records
      ⟨none, some 1, some 1, some 2⟩ [⟨some 0, some 3, some 4, some 7⟩]
      []).2.2.2 (by decide)

/-- C10: the gpt collector variant converts the whole size field with
`int()`, so the suffixed value `"819104023 (+ 7 unknown size)"` raises
`ValueError` and the handler returns 0; in general any field value containing
a parenthesis is mapped to 0 instead of being parsed for its leading numeric
token. -/
theorem gpt_adapter_suffix_maps_to_zero :
    Gpt.get_annex_size_async
        (OracleOutcome.okJson (some "819104023 (+ 7 unknown size)")) = 0
    ∧ ∀ s : String, '(' ∈ s.data →
        Gpt.get_annex_size_async (OracleOutcome.okJson (some s)) = 0 := by
  constructor
  · decide
  · intro s hparen
    have hnone : pyIntNat? s.data = none :=
      pyIntNat_of_mem_non_digit s.data '(' hparen (by decide) (by decide)
    have hbody : Gpt.annexSizeTryBody (OracleOutcome.okJson (some s))
        = match pyIntNat? s.data with
          | some n => Except.ok n
          | none => Except.error "ValueError: invalid literal for int" := rfl
    unfold Gpt.get_annex_size_async
    rw [hbody, hnone]

/-- C10 witness: the parenthetical-suffix rule applied to the field value
`"1 (x)"`. -/
theorem gpt_adapter_suffix_maps_to_zero_witness :
    Gpt.get_annex_size_async (OracleOutcome.okJson (some "1 (x)")) = 0 :=
  gpt_adapter_suffix_maps_to_zero.2 "1 (x)" (by decide)
